import Mathlib

/-!
Verification of the scheduling core of the hhg-calvin-2 repository: the
availability calculator (`calculateFreeTimeSlots` and the summary built by
`calculateAvailability` in `src/scripts/utils/timezone-utils.js`), the
conflict checker (`checkConflicts` / `checkSingleAppointment` in
`src/scripts/conflict-checker.js`), and the timezone display helpers
(`getTimezoneAbbr`, `getTimeOfDayRange` in
`src/scripts/utils/timezone-utils.js`).

Times are modelled as integers (milliseconds since the epoch, exactly the
numeric value JavaScript `Date` comparisons and subtractions operate on).
Unparseable timestamps (JavaScript `NaN` dates) are modelled with `Option`.
The JavaScript comparator sorts (`.sort((a, b) => a.start - b.start)`) are
modelled with `List.insertionSort`, a stable sort by the same key, matching
the stable-sort guarantee of the ECMAScript specification.
-/

/-! ## Availability calculator (`timezone-utils.js`, `PractitionerAvailabilityCalculator`) -/

/-- An availability record as consumed by `calculateFreeTimeSlots`:
`{startDateTime, endDateTime, locationId}` with times already resolved to
epoch milliseconds. -/
structure AvailabilitySlot where
  startDateTime : Int
  endDateTime : Int
  locationId : Int
deriving Repr, DecidableEq

/-- A booked appointment in the simplified form built inside
`calculateFreeTimeSlots` (`{start: new Date(apt.start), end: new Date(apt.end)}`).
The source field `end` is a reserved word in Lean and is rendered `stop`. -/
structure BookedSlot where
  start : Int
  stop : Int
deriving Repr, DecidableEq

/-- A free slot as pushed by `calculateFreeTimeSlots`:
`{startDateTime, endDateTime, duration, locationId}`. -/
structure FreeSlot where
  startDateTime : Int
  endDateTime : Int
  duration : Int
  locationId : Int
deriving Repr, DecidableEq

/-- The appointment sort `bookedSlots.sort((a, b) => a.start - b.start)`. -/
def sortBookedByStart (appointments : List BookedSlot) : List BookedSlot :=
  List.insertionSort (fun a b => a.start ≤ b.start) appointments

/-- The final sort `freeSlots.sort((a, b) => a.startDateTime - b.startDateTime)`. -/
def sortFreeByStart (slots : List FreeSlot) : List FreeSlot :=
  List.insertionSort (fun a b => a.startDateTime ≤ b.startDateTime) slots

/-- The inner `for (const appointment of overlappingAppointments)` loop of
`calculateFreeTimeSlots`: walk the overlapping appointments, emitting a gap
slot whenever the cursor `currentStart` is strictly before the appointment
start, and advancing the cursor to `Math.max(currentStart, appointment.end)`.
Returns the final cursor together with the emitted slots, in emission order. -/
def subtractLoop (currentStart : Int) (locationId : Int) :
    List BookedSlot → Int × List FreeSlot
  | [] => (currentStart, [])
  | appointment :: rest =>
    let emitted : List FreeSlot :=
      if currentStart < appointment.start then
        [{ startDateTime := currentStart
           endDateTime := appointment.start
           duration := appointment.start - currentStart
           locationId := locationId }]
      else []
    let next := subtractLoop (max currentStart appointment.stop) locationId rest
    (next.1, emitted ++ next.2)

/-- The overlap filter predicate of `calculateFreeTimeSlots`
(`apt.start < slotEnd && apt.end > currentStart`). -/
def overlapsWindow (currentStart slotEnd : Int) (apt : BookedSlot) : Bool :=
  decide (apt.start < slotEnd) && decide (currentStart < apt.stop)

/-- One iteration of the outer `for (const availSlot of availabilitySlots)` loop
of `calculateFreeTimeSlots`: filter the (already sorted) booked slots to those
strictly overlapping this availability slot
(`apt.start < slotEnd && apt.end > currentStart`), emit the whole window when
nothing overlaps, otherwise run the subtraction loop and emit a final slot if
the cursor is still strictly before the window end. -/
def processAvailSlot (availSlot : AvailabilitySlot) (bookedSlots : List BookedSlot) :
    List FreeSlot :=
  let currentStart := availSlot.startDateTime
  let slotEnd := availSlot.endDateTime
  let overlappingAppointments := bookedSlots.filter (overlapsWindow currentStart slotEnd)
  if overlappingAppointments.isEmpty then
    [{ startDateTime := currentStart
       endDateTime := slotEnd
       duration := slotEnd - currentStart
       locationId := availSlot.locationId }]
  else
    let result := subtractLoop currentStart availSlot.locationId overlappingAppointments
    if result.1 < slotEnd then
      result.2 ++ [{ startDateTime := result.1
                     endDateTime := slotEnd
                     duration := slotEnd - result.1
                     locationId := availSlot.locationId }]
    else result.2

/-- `calculateFreeTimeSlots(availabilitySlots, appointments)`: sort the booked
appointments by start, subtract them from every availability slot
independently, and sort the concatenated result by start. -/
def calculateFreeTimeSlots (availabilitySlots : List AvailabilitySlot)
    (appointments : List BookedSlot) : List FreeSlot :=
  let bookedSlots := sortBookedByStart appointments
  sortFreeByStart
    ((availabilitySlots.map fun availSlot => processAvailSlot availSlot bookedSlots).flatten)

/-- The summary object assembled by `calculateAvailability`. JavaScript numbers
are modelled as rationals so that the fractional minutes computation is exact. -/
structure AvailabilitySummary where
  totalAvailabilityPeriods : Nat
  totalAppointments : Nat
  totalFreeSlots : Nat
  totalFreeMinutes : ℚ
deriving Repr, DecidableEq

/-- The pure tail of `calculateAvailability` (everything after the two upstream
fetches have resolved): compute the free slots and assemble the summary, with
`totalFreeMinutes` accumulated by
`reduce((sum, slot) => sum + slot.duration / (1000 * 60), 0)`. -/
def calculateAvailabilityCore (availabilitySlots : List AvailabilitySlot)
    (appointments : List BookedSlot) : AvailabilitySummary × List FreeSlot :=
  let freeTimeSlots := calculateFreeTimeSlots availabilitySlots appointments
  ({ totalAvailabilityPeriods := availabilitySlots.length
     totalAppointments := appointments.length
     totalFreeSlots := freeTimeSlots.length
     totalFreeMinutes :=
       freeTimeSlots.foldl (fun sum slot => sum + (slot.duration : ℚ) / (1000 * 60)) 0 },
   freeTimeSlots)

/-! ## Timezone helpers (`timezone-utils.js`) -/

/-- The static abbreviation table of `getTimezoneAbbr`, in source order. -/
def timezoneMap : List (String × String) :=
  [("Australia/Melbourne", "AEST/AEDT"),
   ("Australia/Sydney", "AEST/AEDT"),
   ("Australia/Hobart", "AEST/AEDT"),
   ("Australia/ACT", "AEST/AEDT"),
   ("Australia/Canberra", "AEST/AEDT"),
   ("Australia/Currie", "AEST/AEDT"),
   ("Australia/NSW", "AEST/AEDT"),
   ("Australia/Tasmania", "AEST/AEDT"),
   ("Australia/Victoria", "AEST/AEDT"),
   ("Australia/Brisbane", "AEST"),
   ("Australia/Lindeman", "AEST"),
   ("Australia/Queensland", "AEST"),
   ("Australia/Adelaide", "ACST/ACDT"),
   ("Australia/Broken_Hill", "ACST/ACDT"),
   ("Australia/South", "ACST/ACDT"),
   ("Australia/Yancowinna", "ACST/ACDT"),
   ("Australia/Darwin", "ACST"),
   ("Australia/North", "ACST"),
   ("Australia/Perth", "AWST"),
   ("Australia/West", "AWST"),
   ("Australia/Eucla", "ACWST"),
   ("Australia/Lord_Howe", "LHST/LHDT"),
   ("Australia/LHI", "LHST/LHDT")]

/-- Character-level model of the JavaScript `timezone.split('/')`. -/
def splitChars : List Char → List (List Char)
  | [] => [[]]
  | c :: rest =>
    if c = '/' then [] :: splitChars rest
    else
      match splitChars rest with
      | seg :: segs => (c :: seg) :: segs
      | [] => [[c]]

/-- `s.split('/')` on a Lean string. -/
def splitOnSlash (s : String) : List String :=
  (splitChars s.toList).map fun l => String.mk l

/-- `getTimezoneAbbr(timezone)`: empty (JavaScript falsy) input yields the empty
string; otherwise look the identifier up in the static table; otherwise fall
back to `timezone.split('/')[1] || timezone` (the *second* path segment, with
the whole identifier as fallback when that segment is missing or empty). -/
def getTimezoneAbbr (timezone : String) : String :=
  if timezone = "" then ""
  else
    match timezoneMap.lookup timezone with
    | some abbr => abbr
    | none =>
      match (splitOnSlash timezone).get? 1 with
      | some seg => if seg = "" then timezone else seg
      | none => timezone

/-- Modelled from the spec: the "final path segment of the identifier"
fallback that §4.1 attributes to the abbreviation lookup (the last
slash-separated segment), used to compare the specified fallback with the
source's. -/
def finalPathSegment (timezone : String) : String :=
  ((splitOnSlash timezone).getLast?).getD timezone

/-- `getTimePeriod(hour)` from `getTimeOfDayRange`: morning below 12,
afternoon below 17, otherwise evening. -/
def getTimePeriod (hour : Nat) : String :=
  if hour < 12 then "morning"
  else if hour < 17 then "afternoon"
  else "evening"

/-- The bucket logic of `getTimeOfDayRange(startUTC, endUTC, timezone)` as a
function of the two local hours extracted by `getHours(toZonedTime(...))`:
same bucket returns that bucket, a numerically smaller end hour returns the
start bucket, and otherwise the hyphen-joined spanning buckets are built
exactly as in the source (`periods.push(...)` then `periods.join('-')`). -/
def getTimeOfDayRangeFromHours (startHour endHour : Nat) : String :=
  let startPeriod := getTimePeriod startHour
  let endPeriod := getTimePeriod endHour
  if startPeriod = endPeriod then startPeriod
  else if endHour < startHour then startPeriod
  else
    let periods :=
      (if startHour < 12 ∧ 12 ≤ endHour then ["morning"] else []) ++
      (if startHour < 17 ∧ 12 ≤ endHour then ["afternoon"] else []) ++
      (if 17 ≤ endHour then ["evening"] else [])
    String.intercalate "-" periods

/-- `getTimeOfDayRange(startUTC, endUTC, timezone)`. The extraction of a local
hour from an instant (`getHours(toZonedTime(utc, timezone))`, backed by the
IANA timezone database of the date library, which is external to this
repository) is abstracted as the parameter `localHourOf`; everything the
function itself computes is `getTimeOfDayRangeFromHours` applied to the two
extracted hours. -/
def getTimeOfDayRange (localHourOf : Int → String → Nat)
    (startUTC endUTC : Int) (timezone : String) : String :=
  getTimeOfDayRangeFromHours (localHourOf startUTC timezone) (localHourOf endUTC timezone)

/-- Modelled from the spec: the bucket a local hour falls in, written with the
explicit half-open ranges of the claim ([0,12) morning, [12,17) afternoon,
[17,24) evening). -/
def specBucket (hour : Nat) : String :=
  if 0 ≤ hour ∧ hour < 12 then "morning"
  else if 12 ≤ hour ∧ hour < 17 then "afternoon"
  else "evening"

/-- Modelled from the spec: the hyphen-joined ordered union of the buckets
spanned by the closed hour range from `startHour` up to `endHour` (morning is
spanned when the range meets [0,12), afternoon when it meets [12,17), evening
when it meets [17,24)). -/
def specSpannedUnion (startHour endHour : Nat) : String :=
  String.intercalate "-"
    ((if startHour < 12 then ["morning"] else []) ++
     (if startHour < 17 ∧ 12 ≤ endHour then ["afternoon"] else []) ++
     (if 17 ≤ endHour then ["evening"] else []))

/-- A toy hour-extraction model (hour = instant mod 24) used by witnesses to
instantiate the abstracted `getHours(toZonedTime(...))` parameter. -/
def localHourOf₀ (instant : Int) (_timezone : String) : Nat :=
  (instant % 24).toNat

/-! ## Conflict checker (`conflict-checker.js`) -/

/-- A suggested appointment as consumed by `checkSingleAppointment`. The
`start`/`end` timestamps are `none` when `new Date(...)` would produce an
invalid date; `locationId` is `none` when the field is absent (`undefined`).
All other candidate fields are passed through untouched and are irrelevant to
the checker's control flow, so they are not modelled. -/
structure Candidate where
  start : Option Int
  stop : Option Int
  locationId : Option Int
deriving Repr, DecidableEq

/-- A free time slot as pre-processed by `checkConflicts`
(`{start, end, locationId, originalSlot}`); `matchedSlot` stores this record. -/
structure CheckerSlot where
  start : Int
  stop : Int
  locationId : Option Int
deriving Repr, DecidableEq

/-- JavaScript truthiness of an optional numeric `locationId`: absent, `null`
and `0` are falsy. -/
def locTruthy : Option Int → Bool
  | none => false
  | some v => v ≠ 0

/-- One entry of the `conflicts` array: either a plain reason string or the
structured `partial_overlap` record (its four instant fields). -/
inductive Conflict where
  | msg (reason : String)
  | partialOverlap (slotStart slotStop overlapStart overlapStop : Int)
deriving Repr, DecidableEq

/-- The result record of `checkSingleAppointment`. -/
structure CheckResult where
  isValid : Bool
  conflicts : List Conflict
  matchedSlot : Option CheckerSlot
  timeWithinSlot : Bool
deriving Repr, DecidableEq

/-- The `for (const slot of freeSlots)` loop of `checkSingleAppointment`, with
the accumulated `result.conflicts` passed along. Containment
(`appointmentStart >= slot.start && appointmentEnd <= slot.end`) with a
location clash (`appointment.locationId && slot.locationId &&
appointment.locationId !== slot.locationId`) is `continue`; containment
without a clash returns a valid result; otherwise a strict overlap
(`hasTimeOverlap`) pushes a `partial_overlap` record. After the loop a still
empty conflict list gets the generic no-slot message. -/
def scanSlots (appointmentStart appointmentEnd : Int) (locationId : Option Int) :
    List CheckerSlot → List Conflict → CheckResult
  | [], acc =>
    { isValid := false
      conflicts :=
        if acc.isEmpty then [Conflict.msg "No available time slot found for this appointment"]
        else acc
      matchedSlot := none
      timeWithinSlot := false }
  | slot :: rest, acc =>
    if slot.start ≤ appointmentStart ∧ appointmentEnd ≤ slot.stop then
      if locTruthy locationId ∧ locTruthy slot.locationId ∧ locationId ≠ slot.locationId then
        scanSlots appointmentStart appointmentEnd locationId rest acc
      else
        { isValid := true
          conflicts := acc
          matchedSlot := some slot
          timeWithinSlot := true }
    else if appointmentStart < slot.stop ∧ slot.start < appointmentEnd then
      scanSlots appointmentStart appointmentEnd locationId rest
        (acc ++ [Conflict.partialOverlap slot.start slot.stop
          (max appointmentStart slot.start) (min appointmentEnd slot.stop)])
    else
      scanSlots appointmentStart appointmentEnd locationId rest acc

/-- `checkSingleAppointment(appointment, freeSlots)`: reject unparseable
timestamps, reject `start >= end`, otherwise scan the free slots. -/
def checkSingleAppointment (appointment : Candidate) (freeSlots : List CheckerSlot) :
    CheckResult :=
  match appointment.start, appointment.stop with
  | some appointmentStart, some appointmentEnd =>
    if appointmentEnd ≤ appointmentStart then
      { isValid := false
        conflicts := [Conflict.msg "Appointment start time must be before end time"]
        matchedSlot := none
        timeWithinSlot := false }
    else
      scanSlots appointmentStart appointmentEnd appointment.locationId freeSlots []
  | _, _ =>
    { isValid := false
      conflicts := [Conflict.msg "Invalid appointment start or end time format"]
      matchedSlot := none
      timeWithinSlot := false }

/-- The availability argument of `checkConflicts`; `freeTimeSlots` is `none`
when the property is absent (the structural-validation failure case). -/
structure PractitionerAvailability where
  freeTimeSlots : Option (List CheckerSlot)
deriving Repr, DecidableEq

/-- The suggestions argument of `checkConflicts`; `suggestedAppointments` is
`none` when the property is absent. -/
structure SuggestedAppointments where
  suggestedAppointments : Option (List Candidate)
deriving Repr, DecidableEq

/-- A valid entry pushed to `results.validAppointments`. -/
structure ValidAppointment where
  appointment : Candidate
  matchedSlot : Option CheckerSlot
  timeWithinSlot : Bool
deriving Repr, DecidableEq

/-- A conflicted entry pushed to `results.conflictedAppointments`. -/
structure ConflictedAppointment where
  appointment : Candidate
  conflicts : List Conflict
deriving Repr, DecidableEq

/-- The `results.summary` record of `checkConflicts`. -/
structure ConflictSummary where
  totalSuggested : Nat
  totalValid : Nat
  totalConflicted : Nat
  validationErrors : List String
deriving Repr, DecidableEq

/-- The full `results` record of `checkConflicts`. -/
structure ConflictResults where
  validAppointments : List ValidAppointment
  conflictedAppointments : List ConflictedAppointment
  summary : ConflictSummary
deriving Repr, DecidableEq

/-- The `for (const appointment of suggestedAppointments.suggestedAppointments)`
loop of `checkConflicts`: route each candidate to the valid or conflicted list
according to `checkSingleAppointment`, preserving order. -/
def classifyAppointments (freeSlots : List CheckerSlot) :
    List Candidate → List ValidAppointment × List ConflictedAppointment
  | [] => ([], [])
  | appointment :: rest =>
    let conflictCheck := checkSingleAppointment appointment freeSlots
    let tail := classifyAppointments freeSlots rest
    if conflictCheck.isValid then
      ({ appointment := appointment
         matchedSlot := conflictCheck.matchedSlot
         timeWithinSlot := conflictCheck.timeWithinSlot } :: tail.1, tail.2)
    else
      (tail.1, { appointment := appointment, conflicts := conflictCheck.conflicts } :: tail.2)

/-- `checkConflicts(practitionerAvailability, suggestedAppointments)`.
`totalSuggested` is `suggestedAppointments.suggestedAppointments?.length || 0`;
a missing availability object or missing `freeTimeSlots` records a validation
error and returns immediately (with `totalValid = totalConflicted = 0`), as
does a missing `suggestedAppointments` collection; otherwise every candidate
is classified and the totals are the lengths of the two result lists. -/
def checkConflicts (practitionerAvailability : Option PractitionerAvailability)
    (suggestedAppointments : Option SuggestedAppointments) : ConflictResults :=
  let totalSuggested :=
    match suggestedAppointments with
    | some sa => match sa.suggestedAppointments with
      | some l => l.length
      | none => 0
    | none => 0
  let base : ConflictResults :=
    { validAppointments := []
      conflictedAppointments := []
      summary :=
        { totalSuggested := totalSuggested
          totalValid := 0
          totalConflicted := 0
          validationErrors := [] } }
  match practitionerAvailability with
  | none =>
    { base with summary :=
        { base.summary with validationErrors :=
            ["Invalid practitioner availability data structure"] } }
  | some pa =>
    match pa.freeTimeSlots with
    | none =>
      { base with summary :=
          { base.summary with validationErrors :=
              ["Invalid practitioner availability data structure"] } }
    | some freeSlots =>
      match suggestedAppointments with
      | none =>
        { base with summary :=
            { base.summary with validationErrors :=
                ["Invalid suggested appointments data structure"] } }
      | some sa =>
        match sa.suggestedAppointments with
        | none =>
          { base with summary :=
              { base.summary with validationErrors :=
                  ["Invalid suggested appointments data structure"] } }
        | some appointments =>
          let classified := classifyAppointments freeSlots appointments
          { validAppointments := classified.1
            conflictedAppointments := classified.2
            summary :=
              { totalSuggested := totalSuggested
                totalValid := classified.1.length
                totalConflicted := classified.2.length
                validationErrors := [] } }

/-- Location compatibility as the claims state it: the candidate's or the
slot's locationId is unset (JavaScript-falsy), or the two are equal. -/
def locationCompatible (a b : Option Int) : Prop :=
  locTruthy a = false ∨ locTruthy b = false ∨ a = b

instance (a b : Option Int) : Decidable (locationCompatible a b) := by
  unfold locationCompatible; infer_instance

/-- The matching condition of the checker's slot scan: the candidate interval
is contained in the slot and the locations are compatible. -/
def fitsSlot (s e : Int) (loc : Option Int) (slot : CheckerSlot) : Prop :=
  slot.start ≤ s ∧ e ≤ slot.stop ∧ locationCompatible loc slot.locationId

instance (s e : Int) (loc : Option Int) (slot : CheckerSlot) :
    Decidable (fitsSlot s e loc slot) := by
  unfold fitsSlot; infer_instance

/-- The partial-overlap details the checker produces for a candidate interval
against a slot list: one `partial_overlap` record per strictly overlapping
slot, in slot order, with the overlap interval (max of starts, min of ends). -/
def overlapDetails (s e : Int) (slots : List CheckerSlot) : List Conflict :=
  (slots.filter fun slot => decide (s < slot.stop) && decide (slot.start < e)).map
    fun slot => Conflict.partialOverlap slot.start slot.stop (max s slot.start) (min e slot.stop)

/-- Overlap of a booked slot with an availability window, clipped to the
window: the length of the intersection of the two intervals (zero when they
do not meet). -/
def overlapWithin (b : BookedSlot) (W : AvailabilitySlot) : Int :=
  max 0 (min b.stop W.endDateTime - max b.start W.startDateTime)

instance : IsTotal BookedSlot (fun a b => a.start ≤ b.start) := ⟨fun _ _ => le_total _ _⟩

instance : IsTrans BookedSlot (fun a b => a.start ≤ b.start) := ⟨fun _ _ _ => le_trans⟩

/-! ## Helper lemmas -/

theorem foldl_add_div_eq_sum (c : ℚ) (l : List FreeSlot) (a : ℚ) :
    l.foldl (fun sum slot => sum + (slot.duration : ℚ) / c) a
      = a + ((l.map FreeSlot.duration).sum : ℚ) / c := by
  induction l generalizing a with
  | nil => simp
  | cons x xs ih =>
    simp only [List.foldl_cons, List.map_cons, List.sum_cons, ih]
    push_cast
    ring

/-! ## C9 -/

/-- C9: the calculator's summary reports `totalFreeMinutes` as the exact
fractional sum of the emitted slot durations (in milliseconds) divided by
60000, with no truncation, alongside the count of input availability windows,
the count of input bookings, and the count of output free slots. -/
theorem calculateAvailabilityCore_summary (availabilitySlots : List AvailabilitySlot)
    (appointments : List BookedSlot) :
    (calculateAvailabilityCore availabilitySlots appointments).1.totalFreeMinutes
        = (((calculateFreeTimeSlots availabilitySlots appointments).map
            FreeSlot.duration).sum : ℚ) / 60000
      ∧ (calculateAvailabilityCore availabilitySlots appointments).1.totalAvailabilityPeriods
        = availabilitySlots.length
      ∧ (calculateAvailabilityCore availabilitySlots appointments).1.totalAppointments
        = appointments.length
      ∧ (calculateAvailabilityCore availabilitySlots appointments).1.totalFreeSlots
        = (calculateFreeTimeSlots availabilitySlots appointments).length := by
  refine ⟨?_, rfl, rfl, rfl⟩
  show (calculateFreeTimeSlots availabilitySlots appointments).foldl
      (fun sum slot => sum + (slot.duration : ℚ) / (1000 * 60)) 0 = _
  rw [foldl_add_div_eq_sum]
  norm_num

/-! ## C10 -/

/-- C10: the string returned by `getTimeOfDayRange` depends only on the local
hour-of-day of the two endpoints in the given timezone: two invocations whose
start instants have equal local hours and whose end instants have equal local
hours produce the same classification, so in particular an interval spanning
whole days whose local end hour is not below its local start hour is
classified as if it lay within one day. -/
theorem getTimeOfDayRange_hour_extensional (localHourOf : Int → String → Nat)
    (startUTC₁ endUTC₁ startUTC₂ endUTC₂ : Int) (tz₁ tz₂ : String)
    (hstart : localHourOf startUTC₁ tz₁ = localHourOf startUTC₂ tz₂)
    (hend : localHourOf endUTC₁ tz₁ = localHourOf endUTC₂ tz₂) :
    getTimeOfDayRange localHourOf startUTC₁ endUTC₁ tz₁
      = getTimeOfDayRange localHourOf startUTC₂ endUTC₂ tz₂ := by
  unfold getTimeOfDayRange
  rw [hstart, hend]

/-- Witness for C10 at concrete inputs: instants two whole days apart in a
fixed hour-extraction model get the same classification as a same-day pair
with the same local hours. -/
theorem getTimeOfDayRange_hour_extensional_witness :
    localHourOf₀ 9 "Australia/Melbourne" = localHourOf₀ 57 "Australia/Melbourne"
    ∧ localHourOf₀ 13 "Australia/Melbourne" = localHourOf₀ 61 "Australia/Melbourne"
    ∧ getTimeOfDayRange localHourOf₀ 9 13 "Australia/Melbourne"
        = getTimeOfDayRange localHourOf₀ 57 61 "Australia/Melbourne" :=
  ⟨by decide, by decide,
    getTimeOfDayRange_hour_extensional localHourOf₀ 9 13 57 61
      "Australia/Melbourne" "Australia/Melbourne" (by decide) (by decide)⟩

/-! ## C7 -/

/-- C7 counterexample: `America/Argentina/Buenos_Aires` is a well-formed
identifier that the static table does not contain, and the lookup falls back
to `Argentina` (the second path segment), not to the final path segment
`Buenos_Aires` that the claim describes. -/
theorem getTimezoneAbbr_final_segment_counterexample :
    timezoneMap.lookup "America/Argentina/Buenos_Aires" = none
    ∧ "America/Argentina/Buenos_Aires" ≠ ""
    ∧ getTimezoneAbbr "America/Argentina/Buenos_Aires" = "Argentina"
    ∧ finalPathSegment "America/Argentina/Buenos_Aires" = "Buenos_Aires"
    ∧ getTimezoneAbbr "America/Argentina/Buenos_Aires"
        ≠ finalPathSegment "America/Argentina/Buenos_Aires" := by
  refine ⟨by decide, by decide, by decide, by decide, by decide⟩

/-- C7 (amended): the timezone-abbreviation lookup is total (it is a plain
Lean function, so it never throws): identifiers in the static table map to
their tabled short code; an unmatched non-empty identifier falls back to the
second path segment when one exists and is non-empty, and to the whole
identifier otherwise; empty (JavaScript falsy) input returns the empty
string. -/
theorem getTimezoneAbbr_spec :
    getTimezoneAbbr "" = ""
    ∧ (∀ p ∈ timezoneMap, getTimezoneAbbr p.1 = p.2)
    ∧ (∀ (tz first seg : String) (rest : List String), tz ≠ "" →
        timezoneMap.lookup tz = none → splitOnSlash tz = first :: seg :: rest →
        seg ≠ "" → getTimezoneAbbr tz = seg)
    ∧ (∀ (tz first seg : String) (rest : List String), tz ≠ "" →
        timezoneMap.lookup tz = none → splitOnSlash tz = first :: seg :: rest →
        seg = "" → getTimezoneAbbr tz = tz)
    ∧ (∀ (tz first : String), tz ≠ "" →
        timezoneMap.lookup tz = none → splitOnSlash tz = [first] →
        getTimezoneAbbr tz = tz) := by
  refine ⟨by decide, by decide, ?_, ?_, ?_⟩
  · intro tz first seg rest htz hlook hsplit hseg
    unfold getTimezoneAbbr
    rw [if_neg htz, hlook, hsplit]
    simp [hseg]
  · intro tz first seg rest htz hlook hsplit hseg
    unfold getTimezoneAbbr
    rw [if_neg htz, hlook, hsplit]
    simp [hseg]
  · intro tz first htz hlook hsplit
    unfold getTimezoneAbbr
    rw [if_neg htz, hlook, hsplit]
    simp

/-- Witness for C7: the untabled identifier `Europe/London` falls back to its
second path segment `London`. -/
theorem getTimezoneAbbr_spec_witness : getTimezoneAbbr "Europe/London" = "London" :=
  getTimezoneAbbr_spec.2.2.1 "Europe/London" "Europe" "London" []
    (by decide) (by decide) (by decide) (by decide)

/-! ## C8 -/

theorem bucket_same_hours : ∀ startHour, startHour < 24 → ∀ endHour, endHour < 24 →
    specBucket startHour = specBucket endHour →
    getTimeOfDayRangeFromHours startHour endHour = specBucket startHour := by
  decide

theorem bucket_cross_midnight_hours : ∀ startHour, startHour < 24 → ∀ endHour, endHour < 24 →
    endHour < startHour →
    getTimeOfDayRangeFromHours startHour endHour = specBucket startHour := by
  decide

theorem bucket_span_hours_union : ∀ startHour, startHour < 24 → ∀ endHour, endHour < 24 →
    specBucket startHour ≠ specBucket endHour → startHour ≤ endHour →
    getTimeOfDayRangeFromHours startHour endHour = specSpannedUnion startHour endHour := by
  decide

theorem bucket_span_hours_values : ∀ startHour, startHour < 24 → ∀ endHour, endHour < 24 →
    specBucket startHour ≠ specBucket endHour → startHour ≤ endHour →
    (getTimeOfDayRangeFromHours startHour endHour = "morning-afternoon"
     ∨ getTimeOfDayRangeFromHours startHour endHour = "afternoon-evening"
     ∨ getTimeOfDayRangeFromHours startHour endHour = "morning-afternoon-evening") := by
  decide

/-- C8: for every pair of instants and timezone (with the local-hour
extraction abstracted as `localHourOf`, always producing an hour below 24),
`getTimeOfDayRange` returns the single bucket name when both endpoints fall
in the same bucket ([0,12) morning, [12,17) afternoon, [17,24) evening),
returns only the start bucket when the local end hour is numerically smaller
than the local start hour, and otherwise returns the hyphen-joined ordered
union of the buckets spanned, which is one of `morning-afternoon`,
`afternoon-evening`, `morning-afternoon-evening`. -/
theorem getTimeOfDayRange_buckets (localHourOf : Int → String → Nat)
    (startUTC endUTC : Int) (timezone : String)
    (hs : localHourOf startUTC timezone < 24) (he : localHourOf endUTC timezone < 24) :
    ((specBucket (localHourOf startUTC timezone) = specBucket (localHourOf endUTC timezone) →
        getTimeOfDayRange localHourOf startUTC endUTC timezone
          = specBucket (localHourOf startUTC timezone))
     ∧ (localHourOf endUTC timezone < localHourOf startUTC timezone →
        getTimeOfDayRange localHourOf startUTC endUTC timezone
          = specBucket (localHourOf startUTC timezone))
     ∧ (specBucket (localHourOf startUTC timezone) ≠ specBucket (localHourOf endUTC timezone) →
        localHourOf startUTC timezone ≤ localHourOf endUTC timezone →
        getTimeOfDayRange localHourOf startUTC endUTC timezone
          = specSpannedUnion (localHourOf startUTC timezone) (localHourOf endUTC timezone)
        ∧ (getTimeOfDayRange localHourOf startUTC endUTC timezone = "morning-afternoon"
           ∨ getTimeOfDayRange localHourOf startUTC endUTC timezone = "afternoon-evening"
           ∨ getTimeOfDayRange localHourOf startUTC endUTC timezone
               = "morning-afternoon-evening"))) :=
  ⟨bucket_same_hours _ hs _ he, bucket_cross_midnight_hours _ hs _ he,
    fun hne hle => ⟨bucket_span_hours_union _ hs _ he hne hle,
      bucket_span_hours_values _ hs _ he hne hle⟩⟩

/-- Witness for C8 at a concrete morning-to-afternoon interval (local hours 9
and 13 under the toy hour extraction). -/
theorem getTimeOfDayRange_buckets_witness :
    (specBucket (localHourOf₀ 9 "Australia/Perth") = specBucket (localHourOf₀ 13 "Australia/Perth") →
        getTimeOfDayRange localHourOf₀ 9 13 "Australia/Perth"
          = specBucket (localHourOf₀ 9 "Australia/Perth"))
    ∧ (localHourOf₀ 13 "Australia/Perth" < localHourOf₀ 9 "Australia/Perth" →
        getTimeOfDayRange localHourOf₀ 9 13 "Australia/Perth"
          = specBucket (localHourOf₀ 9 "Australia/Perth"))
    ∧ (specBucket (localHourOf₀ 9 "Australia/Perth") ≠ specBucket (localHourOf₀ 13 "Australia/Perth") →
        localHourOf₀ 9 "Australia/Perth" ≤ localHourOf₀ 13 "Australia/Perth" →
        getTimeOfDayRange localHourOf₀ 9 13 "Australia/Perth"
          = specSpannedUnion (localHourOf₀ 9 "Australia/Perth") (localHourOf₀ 13 "Australia/Perth")
        ∧ (getTimeOfDayRange localHourOf₀ 9 13 "Australia/Perth" = "morning-afternoon"
           ∨ getTimeOfDayRange localHourOf₀ 9 13 "Australia/Perth" = "afternoon-evening"
           ∨ getTimeOfDayRange localHourOf₀ 9 13 "Australia/Perth" = "morning-afternoon-evening")) :=
  getTimeOfDayRange_buckets localHourOf₀ 9 13 "Australia/Perth" (by decide) (by decide)

/-! ## Conflict checker lemmas -/

theorem locationCompatible_iff_not_clash (a b : Option Int) :
    locationCompatible a b ↔ ¬(locTruthy a ∧ locTruthy b ∧ a ≠ b) := by
  unfold locationCompatible
  by_cases h1 : locTruthy a <;> by_cases h2 : locTruthy b <;> by_cases h3 : a = b <;>
    simp_all

theorem scanSlots_valid_find (s e : Int) (loc : Option Int) :
    ∀ (slots : List CheckerSlot) (acc : List Conflict),
      ((scanSlots s e loc slots acc).isValid = true ↔ ∃ slot ∈ slots, fitsSlot s e loc slot)
      ∧ (scanSlots s e loc slots acc).matchedSlot
          = slots.find? fun slot => decide (fitsSlot s e loc slot) := by
  intro slots
  induction slots with
  | nil =>
    intro acc
    simp [scanSlots]
  | cons slot rest ih =>
    intro acc
    by_cases hc : slot.start ≤ s ∧ e ≤ slot.stop
    · by_cases hl : locTruthy loc ∧ locTruthy slot.locationId ∧ loc ≠ slot.locationId
      · have hnotfit : ¬ fitsSlot s e loc slot := by
          unfold fitsSlot
          rw [locationCompatible_iff_not_clash]
          tauto
        rw [List.find?_cons_of_neg rest (by simp [hnotfit])]
        have hscan : scanSlots s e loc (slot :: rest) acc = scanSlots s e loc rest acc := by
          simp [scanSlots, hc, hl]
        rw [hscan]
        refine ⟨?_, (ih acc).2⟩
        rw [(ih acc).1]
        simp [hnotfit]
      · have hfit : fitsSlot s e loc slot :=
          ⟨hc.1, hc.2, (locationCompatible_iff_not_clash _ _).mpr hl⟩
        rw [List.find?_cons_of_pos rest (by simp [hfit])]
        have hscan : scanSlots s e loc (slot :: rest) acc =
            { isValid := true
              conflicts := acc
              matchedSlot := some slot
              timeWithinSlot := true } := by
          simp [scanSlots, hc, hl]
        rw [hscan]
        exact ⟨⟨fun _ => ⟨slot, List.mem_cons_self _ _, hfit⟩, fun _ => rfl⟩, rfl⟩
    · have hnotfit : ¬ fitsSlot s e loc slot := by
        unfold fitsSlot
        tauto
      rw [List.find?_cons_of_neg rest (by simp [hnotfit])]
      by_cases ho : s < slot.stop ∧ slot.start < e
      · have hscan : scanSlots s e loc (slot :: rest) acc =
            scanSlots s e loc rest
              (acc ++ [Conflict.partialOverlap slot.start slot.stop
                (max s slot.start) (min e slot.stop)]) := by
          simp [scanSlots, hc, ho]
        rw [hscan]
        refine ⟨?_, (ih _).2⟩
        rw [(ih _).1]
        simp [hnotfit]
      · have hscan : scanSlots s e loc (slot :: rest) acc = scanSlots s e loc rest acc := by
          simp [scanSlots, hc, ho]
        rw [hscan]
        refine ⟨?_, (ih acc).2⟩
        rw [(ih acc).1]
        simp [hnotfit]

/-! ## C2 -/

/-- C2: a candidate with a parseable interval and `start < end` is marked
valid exactly when some supplied free slot contains it
(`candidate.start >= slot.start` and `candidate.end <= slot.end`) with
compatible locations (either locationId unset, or equal); the first such slot
in the supplied order is attached as `matchedSlot` (the scan stops at it); in
particular a candidate coinciding exactly with a location-compatible slot is
valid. -/
theorem checkSingleAppointment_first_match (appointment : Candidate)
    (freeSlots : List CheckerSlot) (s e : Int)
    (hstart : appointment.start = some s) (hstop : appointment.stop = some e)
    (hlt : s < e) :
    ((checkSingleAppointment appointment freeSlots).isValid = true
      ↔ ∃ slot ∈ freeSlots, slot.start ≤ s ∧ e ≤ slot.stop
          ∧ locationCompatible appointment.locationId slot.locationId)
    ∧ (checkSingleAppointment appointment freeSlots).matchedSlot
        = freeSlots.find? (fun slot => decide (fitsSlot s e appointment.locationId slot))
    ∧ (∀ slot ∈ freeSlots, slot.start = s → slot.stop = e →
        locationCompatible appointment.locationId slot.locationId →
        (checkSingleAppointment appointment freeSlots).isValid = true) := by
  have hrun : checkSingleAppointment appointment freeSlots
      = scanSlots s e appointment.locationId freeSlots [] := by
    unfold checkSingleAppointment
    rw [hstart, hstop]
    simp [not_le.mpr hlt]
  rw [hrun]
  have h := scanSlots_valid_find s e appointment.locationId freeSlots []
  refine ⟨h.1, h.2, ?_⟩
  intro slot hmem h1 h2 hcompat
  rw [h.1]
  exact ⟨slot, hmem, h1.le, h2.ge, hcompat⟩

/-- Witness for C2: a candidate coinciding exactly with the single supplied
slot, at the same location, is valid and that slot is attached. -/
theorem checkSingleAppointment_first_match_witness :
    ((checkSingleAppointment ⟨some 10, some 20, some 1⟩ [⟨10, 20, some 1⟩]).isValid = true
      ↔ ∃ slot ∈ [(⟨10, 20, some 1⟩ : CheckerSlot)], slot.start ≤ 10 ∧ 20 ≤ slot.stop
          ∧ locationCompatible (some 1) slot.locationId)
    ∧ (checkSingleAppointment ⟨some 10, some 20, some 1⟩ [⟨10, 20, some 1⟩]).matchedSlot
        = [(⟨10, 20, some 1⟩ : CheckerSlot)].find?
            (fun slot => decide (fitsSlot 10 20 (some 1) slot))
    ∧ (∀ slot ∈ [(⟨10, 20, some 1⟩ : CheckerSlot)], slot.start = 10 → slot.stop = 20 →
        locationCompatible (some 1) slot.locationId →
        (checkSingleAppointment ⟨some 10, some 20, some 1⟩ [⟨10, 20, some 1⟩]).isValid = true) :=
  checkSingleAppointment_first_match ⟨some 10, some 20, some 1⟩ [⟨10, 20, some 1⟩]
    10 20 rfl rfl (by decide)

/-! ## C4 -/

theorem scanSlots_no_containment (s e : Int) (loc : Option Int) :
    ∀ (slots : List CheckerSlot) (acc : List Conflict),
      (∀ slot ∈ slots, ¬(slot.start ≤ s ∧ e ≤ slot.stop)) →
      scanSlots s e loc slots acc =
        { isValid := false
          conflicts :=
            if (acc ++ overlapDetails s e slots).isEmpty
            then [Conflict.msg "No available time slot found for this appointment"]
            else acc ++ overlapDetails s e slots
          matchedSlot := none
          timeWithinSlot := false } := by
  intro slots
  induction slots with
  | nil =>
    intro acc _
    simp [scanSlots, overlapDetails]
  | cons slot rest ih =>
    intro acc h
    have hc : ¬(slot.start ≤ s ∧ e ≤ slot.stop) := h slot (List.mem_cons_self _ _)
    have hrest : ∀ x ∈ rest, ¬(x.start ≤ s ∧ e ≤ x.stop) :=
      fun x hx => h x (List.mem_cons_of_mem _ hx)
    by_cases ho : s < slot.stop ∧ slot.start < e
    · have hfilter : overlapDetails s e (slot :: rest)
          = Conflict.partialOverlap slot.start slot.stop
              (max s slot.start) (min e slot.stop) :: overlapDetails s e rest := by
        unfold overlapDetails
        rw [List.filter_cons_of_pos (by simp [ho.1, ho.2])]
        rfl
      have hscan : scanSlots s e loc (slot :: rest) acc =
          scanSlots s e loc rest
            (acc ++ [Conflict.partialOverlap slot.start slot.stop
              (max s slot.start) (min e slot.stop)]) := by
        simp [scanSlots, hc, ho]
      rw [hscan, ih _ hrest, hfilter]
      simp
    · have hfilter : overlapDetails s e (slot :: rest) = overlapDetails s e rest := by
        unfold overlapDetails
        rw [List.filter_cons_of_neg (by simpa using ho)]
      have hscan : scanSlots s e loc (slot :: rest) acc = scanSlots s e loc rest acc := by
        simp [scanSlots, hc, ho]
      rw [hscan, ih _ hrest, hfilter]

/-- C4: a well-formed candidate (parseable, `start < end`) that no supplied
free slot fully contains is conflicted, and its conflict list holds exactly
one partial-overlap detail per supplied slot that strictly overlaps it
(`candidate.start < slot.end` and `candidate.end > slot.start`), in slot
order, each with overlap interval (max of the starts, min of the ends); when
no slot strictly overlaps, the list is exactly the single generic no-slot
message. -/
theorem checkSingleAppointment_partial_overlap_details (appointment : Candidate)
    (freeSlots : List CheckerSlot) (s e : Int)
    (hstart : appointment.start = some s) (hstop : appointment.stop = some e)
    (hlt : s < e)
    (hnc : ∀ slot ∈ freeSlots, ¬(slot.start ≤ s ∧ e ≤ slot.stop)) :
    (checkSingleAppointment appointment freeSlots).isValid = false
    ∧ (checkSingleAppointment appointment freeSlots).matchedSlot = none
    ∧ (checkSingleAppointment appointment freeSlots).conflicts
        = (if overlapDetails s e freeSlots = []
           then [Conflict.msg "No available time slot found for this appointment"]
           else overlapDetails s e freeSlots) := by
  have hrun : checkSingleAppointment appointment freeSlots
      = scanSlots s e appointment.locationId freeSlots [] := by
    unfold checkSingleAppointment
    rw [hstart, hstop]
    simp [not_le.mpr hlt]
  rw [hrun, scanSlots_no_containment s e appointment.locationId freeSlots [] hnc]
  refine ⟨rfl, rfl, ?_⟩
  simp [List.isEmpty_iff]

/-- Witness for C4: a candidate spanning the boundary of two adjacent slots
gets exactly one partial-overlap detail per slot, with clamped overlap
intervals. -/
theorem checkSingleAppointment_partial_overlap_details_witness :
    (checkSingleAppointment ⟨some 50, some 150, none⟩
        [⟨0, 100, some 1⟩, ⟨100, 200, some 2⟩]).isValid = false
    ∧ (checkSingleAppointment ⟨some 50, some 150, none⟩
        [⟨0, 100, some 1⟩, ⟨100, 200, some 2⟩]).matchedSlot = none
    ∧ (checkSingleAppointment ⟨some 50, some 150, none⟩
        [⟨0, 100, some 1⟩, ⟨100, 200, some 2⟩]).conflicts
        = (if overlapDetails 50 150 [⟨0, 100, some 1⟩, ⟨100, 200, some 2⟩] = []
           then [Conflict.msg "No available time slot found for this appointment"]
           else overlapDetails 50 150 [⟨0, 100, some 1⟩, ⟨100, 200, some 2⟩]) :=
  checkSingleAppointment_partial_overlap_details ⟨some 50, some 150, none⟩
    [⟨0, 100, some 1⟩, ⟨100, 200, some 2⟩] 50 150 rfl rfl (by decide) (by decide)

/-! ## C3 -/

theorem classifyAppointments_length (freeSlots : List CheckerSlot) :
    ∀ appointments : List Candidate,
      (classifyAppointments freeSlots appointments).1.length
        + (classifyAppointments freeSlots appointments).2.length
        = appointments.length := by
  intro appointments
  induction appointments with
  | nil => rfl
  | cons appointment rest ih =>
    cases hv : (checkSingleAppointment appointment freeSlots).isValid
    · simp [classifyAppointments, hv]
      omega
    · simp [classifyAppointments, hv]
      omega

/-- C3 counterexample: with an availability object lacking `freeTimeSlots` and
one supplied candidate, the checker records the structural validation error
and returns immediately with `totalValid = totalConflicted = 0` and an empty
conflicted list, so the totals do not sum to the one supplied candidate and
the candidate is not reported conflicted. -/
theorem checkConflicts_totals_counterexample :
    (checkConflicts (some ⟨none⟩) (some ⟨some [⟨some 0, some 1, none⟩]⟩)).summary.totalSuggested
        = 1
    ∧ (checkConflicts (some ⟨none⟩)
        (some ⟨some [⟨some 0, some 1, none⟩]⟩)).summary.validationErrors
        = ["Invalid practitioner availability data structure"]
    ∧ (checkConflicts (some ⟨none⟩) (some ⟨some [⟨some 0, some 1, none⟩]⟩)).summary.totalValid
        + (checkConflicts (some ⟨none⟩)
            (some ⟨some [⟨some 0, some 1, none⟩]⟩)).summary.totalConflicted ≠ 1
    ∧ (checkConflicts (some ⟨none⟩)
        (some ⟨some [⟨some 0, some 1, none⟩]⟩)).conflictedAppointments = [] := by
  refine ⟨rfl, rfl, by decide, rfl⟩

/-- C3 (amended): when both input structures are present, `totalValid` plus
`totalConflicted` equals the number of supplied candidates (and no validation
error is recorded); when a structural validation error is recorded (missing
availability object, missing free-slot collection, or missing candidate
collection) the checker short-circuits with `totalValid = 0` and
`totalConflicted = 0`, leaving the supplied candidates unclassified rather
than reporting them conflicted. -/
theorem checkConflicts_totals :
    (∀ (freeSlots : List CheckerSlot) (appointments : List Candidate),
      (checkConflicts (some ⟨some freeSlots⟩) (some ⟨some appointments⟩)).summary.totalValid
        + (checkConflicts (some ⟨some freeSlots⟩)
            (some ⟨some appointments⟩)).summary.totalConflicted
        = appointments.length
      ∧ (checkConflicts (some ⟨some freeSlots⟩)
          (some ⟨some appointments⟩)).summary.validationErrors = [])
    ∧ (∀ sa : Option SuggestedAppointments,
        (checkConflicts none sa).summary.totalValid = 0
        ∧ (checkConflicts none sa).summary.totalConflicted = 0
        ∧ (checkConflicts none sa).summary.validationErrors ≠ []
        ∧ (checkConflicts none sa).conflictedAppointments = [])
    ∧ (∀ sa : Option SuggestedAppointments,
        (checkConflicts (some ⟨none⟩) sa).summary.totalValid = 0
        ∧ (checkConflicts (some ⟨none⟩) sa).summary.totalConflicted = 0
        ∧ (checkConflicts (some ⟨none⟩) sa).summary.validationErrors ≠ []
        ∧ (checkConflicts (some ⟨none⟩) sa).conflictedAppointments = [])
    ∧ (∀ freeSlots : List CheckerSlot,
        (checkConflicts (some ⟨some freeSlots⟩) none).summary.totalValid = 0
        ∧ (checkConflicts (some ⟨some freeSlots⟩) none).summary.totalConflicted = 0
        ∧ (checkConflicts (some ⟨some freeSlots⟩) none).summary.validationErrors ≠ []
        ∧ (checkConflicts (some ⟨some freeSlots⟩) none).conflictedAppointments = [])
    ∧ (∀ freeSlots : List CheckerSlot,
        (checkConflicts (some ⟨some freeSlots⟩) (some ⟨none⟩)).summary.totalValid = 0
        ∧ (checkConflicts (some ⟨some freeSlots⟩) (some ⟨none⟩)).summary.totalConflicted = 0
        ∧ (checkConflicts (some ⟨some freeSlots⟩) (some ⟨none⟩)).summary.validationErrors ≠ []
        ∧ (checkConflicts (some ⟨some freeSlots⟩) (some ⟨none⟩)).conflictedAppointments = []) := by
  refine ⟨?_, ?_, ?_, ?_, ?_⟩
  · intro freeSlots appointments
    refine ⟨?_, rfl⟩
    show (classifyAppointments freeSlots appointments).1.length
        + (classifyAppointments freeSlots appointments).2.length = _
    exact classifyAppointments_length freeSlots appointments
  · intro sa
    exact ⟨rfl, rfl, by simp [checkConflicts], rfl⟩
  · intro sa
    exact ⟨rfl, rfl, by simp [checkConflicts], rfl⟩
  · intro freeSlots
    exact ⟨rfl, rfl, by simp [checkConflicts], rfl⟩
  · intro freeSlots
    exact ⟨rfl, rfl, by simp [checkConflicts], rfl⟩

/-! ## Availability calculator lemmas -/

theorem subtractLoop_nil (c loc : Int) : subtractLoop c loc [] = (c, []) := rfl

theorem subtractLoop_cons (c loc : Int) (b : BookedSlot) (rest : List BookedSlot) :
    subtractLoop c loc (b :: rest)
      = ((subtractLoop (max c b.stop) loc rest).1,
         (if c < b.start then
            [{ startDateTime := c, endDateTime := b.start, duration := b.start - c,
               locationId := loc }]
          else []) ++ (subtractLoop (max c b.stop) loc rest).2) := rfl

theorem overlapsWindow_iff (currentStart slotEnd : Int) (apt : BookedSlot) :
    overlapsWindow currentStart slotEnd apt = true
      ↔ apt.start < slotEnd ∧ currentStart < apt.stop := by
  simp [overlapsWindow]

theorem subtractLoop_basic (loc : Int) :
    ∀ (apts : List BookedSlot) (c : Int),
      c ≤ (subtractLoop c loc apts).1
      ∧ (∀ s ∈ (subtractLoop c loc apts).2,
          c ≤ s.startDateTime ∧ s.startDateTime < s.endDateTime) := by
  intro apts
  induction apts with
  | nil =>
    intro c
    exact ⟨le_refl c, by simp [subtractLoop_nil]⟩
  | cons b rest ih =>
    intro c
    obtain ⟨ih1, ih2⟩ := ih (max c b.stop)
    rw [subtractLoop_cons]
    constructor
    · exact le_trans (le_max_left _ _) ih1
    · intro s hs
      rcases List.mem_append.mp hs with hs | hs
      · by_cases hcb : c < b.start
        · rw [if_pos hcb] at hs
          simp only [List.mem_singleton] at hs
          subst hs
          exact ⟨le_refl c, hcb⟩
        · rw [if_neg hcb] at hs
          simp at hs
      · obtain ⟨h1, h2⟩ := ih2 s hs
        exact ⟨le_trans (le_max_left _ _) h1, h2⟩

theorem subtractLoop_mem_spec (loc : Int) :
    ∀ (apts : List BookedSlot) (c : Int),
      apts.Pairwise (fun a b => a.stop ≤ b.start) →
      (∀ b ∈ apts, b.start < b.stop) →
      (∀ b ∈ apts, c ≤ b.stop) →
      c ≤ (subtractLoop c loc apts).1
      ∧ (∀ b ∈ apts, b.stop ≤ (subtractLoop c loc apts).1)
      ∧ (∀ s ∈ (subtractLoop c loc apts).2,
          c ≤ s.startDateTime ∧ s.startDateTime < s.endDateTime
          ∧ s.duration = s.endDateTime - s.startDateTime
          ∧ s.locationId = loc
          ∧ ∃ b ∈ apts, s.endDateTime = b.start)
      ∧ (∀ s ∈ (subtractLoop c loc apts).2, ∀ b ∈ apts,
          b.stop ≤ s.startDateTime ∨ s.endDateTime ≤ b.start) := by
  intro apts
  induction apts with
  | nil =>
    intro c _ _ _
    refine ⟨le_refl c, by simp, by simp [subtractLoop_nil], by simp [subtractLoop_nil]⟩
  | cons b rest ih =>
    intro c hpw hwf hcle
    have hcb : c ≤ b.stop := hcle b (List.mem_cons_self _ _)
    have hmax : max c b.stop = b.stop := max_eq_right hcb
    obtain ⟨hhead, htail⟩ := List.pairwise_cons.mp hpw
    have hwfb : b.start < b.stop := hwf b (List.mem_cons_self _ _)
    have hwfr : ∀ x ∈ rest, x.start < x.stop := fun x hx => hwf x (List.mem_cons_of_mem _ hx)
    have hcler : ∀ x ∈ rest, b.stop ≤ x.stop := fun x hx =>
      le_trans (hhead x hx) (le_of_lt (hwfr x hx))
    obtain ⟨ih1, ih2, ih3, ih4⟩ := ih b.stop htail hwfr hcler
    rw [subtractLoop_cons, hmax]
    refine ⟨le_trans hcb ih1, ?_, ?_, ?_⟩
    · intro x hx
      rcases List.mem_cons.mp hx with hx | hx
      · subst hx; exact ih1
      · exact ih2 x hx
    · intro s hs
      rcases List.mem_append.mp hs with hs | hs
      · by_cases hcs : c < b.start
        · rw [if_pos hcs] at hs
          simp only [List.mem_singleton] at hs
          subst hs
          exact ⟨le_refl c, hcs, rfl, rfl, b, List.mem_cons_self _ _, rfl⟩
        · rw [if_neg hcs] at hs
          simp at hs
      · obtain ⟨h1, h2, h3, h4, x, hx, h5⟩ := ih3 s hs
        exact ⟨le_trans hcb h1, h2, h3, h4, x, List.mem_cons_of_mem _ hx, h5⟩
    · intro s hs x hx
      rcases List.mem_append.mp hs with hs | hs
      · by_cases hcs : c < b.start
        · rw [if_pos hcs] at hs
          simp only [List.mem_singleton] at hs
          subst hs
          rcases List.mem_cons.mp hx with hx | hx
          · subst hx
            exact Or.inr (le_refl _)
          · exact Or.inr (le_trans (le_of_lt hwfb) (hhead x hx))
        · rw [if_neg hcs] at hs
          simp at hs
      · rcases List.mem_cons.mp hx with hx | hx
        · subst hx
          exact Or.inl (ih3 s hs).1
        · exact ih4 s hs x hx

theorem subtractLoop_conservation (loc E : Int) :
    ∀ (apts : List BookedSlot) (c : Int),
      apts.Pairwise (fun a b => a.stop ≤ b.start) →
      (∀ b ∈ apts, b.start < b.stop) →
      (∀ b ∈ apts, c ≤ b.stop) →
      (∀ b ∈ apts, b.start < E) →
      c ≤ E →
      ((subtractLoop c loc apts).2.map FreeSlot.duration).sum
          + max 0 (E - (subtractLoop c loc apts).1)
        = (E - c) - ((apts.map fun b => max 0 (min b.stop E - max b.start c)).sum) := by
  intro apts
  induction apts with
  | nil =>
    intro c _ _ _ _ hcE
    simp [subtractLoop_nil]
    omega
  | cons b rest ih =>
    intro c hpw hwf hcle hlt hcE
    have hcb : c ≤ b.stop := hcle b (List.mem_cons_self _ _)
    have hmax : max c b.stop = b.stop := max_eq_right hcb
    obtain ⟨hhead, htail⟩ := List.pairwise_cons.mp hpw
    have hwfb : b.start < b.stop := hwf b (List.mem_cons_self _ _)
    have hltb : b.start < E := hlt b (List.mem_cons_self _ _)
    rw [subtractLoop_cons, hmax]
    by_cases hbE : b.stop ≤ E
    · have hwfr : ∀ x ∈ rest, x.start < x.stop := fun x hx => hwf x (List.mem_cons_of_mem _ hx)
      have hcler : ∀ x ∈ rest, b.stop ≤ x.stop := fun x hx =>
        le_trans (hhead x hx) (le_of_lt (hwfr x hx))
      have hltr : ∀ x ∈ rest, x.start < E := fun x hx => hlt x (List.mem_cons_of_mem _ hx)
      have hmain := ih b.stop htail hwfr hcler hltr hbE
      have hcongr : (rest.map fun x => max 0 (min x.stop E - max x.start b.stop)).sum
          = (rest.map fun x => max 0 (min x.stop E - max x.start c)).sum := by
        have : ∀ x ∈ rest, max 0 (min x.stop E - max x.start b.stop)
            = max 0 (min x.stop E - max x.start c) := by
          intro x hx
          have h1 : b.stop ≤ x.start := hhead x hx
          omega
        rw [List.map_congr_left this]
      rw [hcongr] at hmain
      by_cases hcs : c < b.start
      · rw [if_pos hcs]
        simp only [List.map_append, List.sum_append, List.map_cons, List.sum_cons,
          List.map_nil, List.sum_nil]
        omega
      · rw [if_neg hcs]
        simp only [List.nil_append, List.map_cons, List.sum_cons]
        omega
    · cases rest with
      | nil =>
        simp only [subtractLoop_nil, List.map_cons, List.map_nil, List.sum_cons, List.sum_nil]
        by_cases hcs : c < b.start
        · rw [if_pos hcs]
          simp only [List.append_nil, List.map_cons, List.map_nil, List.sum_cons, List.sum_nil]
          omega
        · rw [if_neg hcs]
          simp only [List.nil_append, List.map_nil, List.sum_nil]
          omega
      | cons x xs =>
        exfalso
        have h1 : b.stop ≤ x.start := hhead x (List.mem_cons_self _ _)
        have h2 : x.start < E := hlt x (List.mem_cons_of_mem _ (List.mem_cons_self _ _))
        omega

theorem sum_map_filter_of_vanish (p : BookedSlot → Bool) (f : BookedSlot → Int) :
    ∀ l : List BookedSlot, (∀ x ∈ l, p x = false → f x = 0) →
      ((l.filter p).map f).sum = (l.map f).sum := by
  intro l
  induction l with
  | nil => intro _; rfl
  | cons x xs ih =>
    intro h
    have hxs := fun y hy => h y (List.mem_cons_of_mem _ hy)
    cases hp : p x
    · rw [List.filter_cons_of_neg (by simp [hp])]
      simp only [List.map_cons, List.sum_cons, ih hxs, h x (List.mem_cons_self _ _) hp]
      omega
    · rw [List.filter_cons_of_pos (by simp [hp])]
      simp only [List.map_cons, List.sum_cons, ih hxs]

theorem processAvailSlot_eq (W : AvailabilitySlot) (bookedSlots : List BookedSlot) :
    processAvailSlot W bookedSlots =
      if (bookedSlots.filter (overlapsWindow W.startDateTime W.endDateTime)).isEmpty then
        [{ startDateTime := W.startDateTime, endDateTime := W.endDateTime,
           duration := W.endDateTime - W.startDateTime, locationId := W.locationId }]
      else
        if (subtractLoop W.startDateTime W.locationId
              (bookedSlots.filter (overlapsWindow W.startDateTime W.endDateTime))).1
            < W.endDateTime then
          (subtractLoop W.startDateTime W.locationId
            (bookedSlots.filter (overlapsWindow W.startDateTime W.endDateTime))).2
          ++ [{ startDateTime :=
                  (subtractLoop W.startDateTime W.locationId
                    (bookedSlots.filter (overlapsWindow W.startDateTime W.endDateTime))).1
                endDateTime := W.endDateTime
                duration := W.endDateTime
                  - (subtractLoop W.startDateTime W.locationId
                      (bookedSlots.filter (overlapsWindow W.startDateTime W.endDateTime))).1
                locationId := W.locationId }]
        else
          (subtractLoop W.startDateTime W.locationId
            (bookedSlots.filter (overlapsWindow W.startDateTime W.endDateTime))).2 := rfl

theorem processAvailSlot_spec (W : AvailabilitySlot) (bookedSlots : List BookedSlot)
    (hW : W.startDateTime < W.endDateTime)
    (hwf : ∀ b ∈ bookedSlots, b.start < b.stop)
    (hchain : bookedSlots.Pairwise (fun a b => a.stop ≤ b.start)) :
    (∀ s ∈ processAvailSlot W bookedSlots,
        W.startDateTime ≤ s.startDateTime ∧ s.endDateTime ≤ W.endDateTime
        ∧ s.startDateTime < s.endDateTime
        ∧ s.duration = s.endDateTime - s.startDateTime
        ∧ s.locationId = W.locationId)
    ∧ (∀ s ∈ processAvailSlot W bookedSlots, ∀ b ∈ bookedSlots,
        ¬(s.startDateTime < b.stop ∧ b.start < s.endDateTime))
    ∧ ((processAvailSlot W bookedSlots).map FreeSlot.duration).sum
        = (W.endDateTime - W.startDateTime)
          - ((bookedSlots.map fun b => overlapWithin b W).sum) := by
  have hnotov : ∀ b ∈ bookedSlots,
      overlapsWindow W.startDateTime W.endDateTime b = false →
      ¬(b.start < W.endDateTime ∧ W.startDateTime < b.stop) := by
    intro b _ hfalse hcontra
    have h := (overlapsWindow_iff _ _ _).mpr hcontra
    rw [hfalse] at h
    exact Bool.false_ne_true h
  have hfilter_sum : ((bookedSlots.filter
        (overlapsWindow W.startDateTime W.endDateTime)).map
          fun b => max 0 (min b.stop W.endDateTime - max b.start W.startDateTime)).sum
      = (bookedSlots.map fun b => overlapWithin b W).sum := by
    have h := sum_map_filter_of_vanish (overlapsWindow W.startDateTime W.endDateTime)
      (fun b => max 0 (min b.stop W.endDateTime - max b.start W.startDateTime)) bookedSlots
      (by
        intro x hx hfalse
        have hno := hnotov x hx hfalse
        show max 0 (min x.stop W.endDateTime - max x.start W.startDateTime) = 0
        omega)
    simp only [overlapWithin]
    exact h
  by_cases hemp : (bookedSlots.filter (overlapsWindow W.startDateTime W.endDateTime)).isEmpty
      = true
  · have h0 := List.filter_eq_nil_iff.mp (List.isEmpty_iff.mp hemp)
    have hallno : ∀ b ∈ bookedSlots, ¬(b.start < W.endDateTime ∧ W.startDateTime < b.stop) :=
      fun b hb hc => h0 b hb ((overlapsWindow_iff _ _ _).mpr hc)
    have hres : processAvailSlot W bookedSlots =
        [{ startDateTime := W.startDateTime, endDateTime := W.endDateTime,
           duration := W.endDateTime - W.startDateTime, locationId := W.locationId }] := by
      rw [processAvailSlot_eq, if_pos hemp]
    rw [hres]
    refine ⟨?_, ?_, ?_⟩
    · intro s hs
      simp only [List.mem_singleton] at hs
      subst hs
      exact ⟨le_refl _, le_refl _, hW, rfl, rfl⟩
    · intro s hs b hb
      simp only [List.mem_singleton] at hs
      subst hs
      have h := hallno b hb
      simp only [not_and, not_lt]
      intro h1
      by_contra h2
      exact h ⟨by omega, by omega⟩
    · have hzero : (bookedSlots.map fun b => overlapWithin b W).sum = 0 := by
        apply List.sum_eq_zero
        intro x hx
        obtain ⟨b, hb, hbx⟩ := List.mem_map.mp hx
        have h := hallno b hb
        rw [← hbx]
        show max 0 (min b.stop W.endDateTime - max b.start W.startDateTime) = 0
        omega
      rw [hzero]
      simp
  · have hfacts : ∀ b ∈ bookedSlots.filter (overlapsWindow W.startDateTime W.endDateTime),
        b.start < W.endDateTime ∧ W.startDateTime < b.stop :=
      fun b hb => (overlapsWindow_iff _ _ _).mp (List.mem_filter.mp hb).2
    have hwfo : ∀ b ∈ bookedSlots.filter (overlapsWindow W.startDateTime W.endDateTime),
        b.start < b.stop := fun b hb => hwf b (List.mem_filter.mp hb).1
    have hchaino : (bookedSlots.filter
        (overlapsWindow W.startDateTime W.endDateTime)).Pairwise
          (fun a b => a.stop ≤ b.start) := hchain.sublist (List.filter_sublist _)
    have hcle : ∀ b ∈ bookedSlots.filter (overlapsWindow W.startDateTime W.endDateTime),
        W.startDateTime ≤ b.stop := fun b hb => le_of_lt (hfacts b hb).2
    have hlt : ∀ b ∈ bookedSlots.filter (overlapsWindow W.startDateTime W.endDateTime),
        b.start < W.endDateTime := fun b hb => (hfacts b hb).1
    obtain ⟨hm1, hm2, hm3, hm4⟩ := subtractLoop_mem_spec W.locationId
      (bookedSlots.filter (overlapsWindow W.startDateTime W.endDateTime))
      W.startDateTime hchaino hwfo hcle
    have hcons := subtractLoop_conservation W.locationId W.endDateTime
      (bookedSlots.filter (overlapsWindow W.startDateTime W.endDateTime))
      W.startDateTime hchaino hwfo hcle hlt (le_of_lt hW)
    have hboundLoop : ∀ s ∈ (subtractLoop W.startDateTime W.locationId
        (bookedSlots.filter (overlapsWindow W.startDateTime W.endDateTime))).2,
        W.startDateTime ≤ s.startDateTime ∧ s.endDateTime ≤ W.endDateTime
        ∧ s.startDateTime < s.endDateTime
        ∧ s.duration = s.endDateTime - s.startDateTime
        ∧ s.locationId = W.locationId := by
      intro s hs
      obtain ⟨h1, h2, h3, h4, b, hb, h5⟩ := hm3 s hs
      exact ⟨h1, h5 ▸ le_of_lt (hlt b hb), h2, h3, h4⟩
    have hnoovLoop : ∀ s ∈ (subtractLoop W.startDateTime W.locationId
        (bookedSlots.filter (overlapsWindow W.startDateTime W.endDateTime))).2,
        ∀ b ∈ bookedSlots, ¬(s.startDateTime < b.stop ∧ b.start < s.endDateTime) := by
      intro s hs b hb
      cases hob : overlapsWindow W.startDateTime W.endDateTime b
      · have hno := hnotov b hb hob
        obtain ⟨hb1, hb2, _⟩ := hboundLoop s hs
        intro hcontra
        exact hno ⟨by omega, by omega⟩
      · have hmemf : b ∈ bookedSlots.filter (overlapsWindow W.startDateTime W.endDateTime) :=
          List.mem_filter.mpr ⟨hb, hob⟩
        intro hcontra
        rcases hm4 s hs b hmemf with h | h <;> omega
    rw [processAvailSlot_eq, if_neg hemp]
    by_cases hcur : (subtractLoop W.startDateTime W.locationId
        (bookedSlots.filter (overlapsWindow W.startDateTime W.endDateTime))).1
          < W.endDateTime
    · rw [if_pos hcur]
      refine ⟨?_, ?_, ?_⟩
      · intro s hs
        rcases List.mem_append.mp hs with hs | hs
        · exact hboundLoop s hs
        · simp only [List.mem_singleton] at hs
          subst hs
          exact ⟨hm1, le_refl _, hcur, rfl, rfl⟩
      · intro s hs b hb
        rcases List.mem_append.mp hs with hs | hs
        · exact hnoovLoop s hs b hb
        · simp only [List.mem_singleton] at hs
          subst hs
          cases hob : overlapsWindow W.startDateTime W.endDateTime b
          · have hno := hnotov b hb hob
            intro hcontra
            dsimp only at hcontra
            exact hno ⟨by omega, by omega⟩
          · have hmemf : b ∈ bookedSlots.filter
                (overlapsWindow W.startDateTime W.endDateTime) :=
              List.mem_filter.mpr ⟨hb, hob⟩
            have h := hm2 b hmemf
            intro hcontra
            dsimp only at hcontra
            omega
      · simp only [List.map_append, List.sum_append, List.map_cons, List.sum_cons,
          List.map_nil, List.sum_nil]
        omega
    · rw [if_neg hcur]
      refine ⟨hboundLoop, hnoovLoop, ?_⟩
      omega

theorem calculateFreeTimeSlots_single_window (W : AvailabilitySlot) (B : List BookedSlot) :
    List.Perm (calculateFreeTimeSlots [W] B) (processAvailSlot W (sortBookedByStart B)) := by
  have h1 : calculateFreeTimeSlots [W] B
      = sortFreeByStart (processAvailSlot W (sortBookedByStart B)) := by
    unfold calculateFreeTimeSlots
    simp
  rw [h1]
  unfold sortFreeByStart
  exact List.perm_insertionSort _ _

theorem sortBookedByStart_chain (B : List BookedSlot)
    (hwf : ∀ b ∈ B, b.start < b.stop)
    (hdisj : B.Pairwise fun a b => ¬(a.start < b.stop ∧ b.start < a.stop)) :
    (sortBookedByStart B).Pairwise (fun a b => a.stop ≤ b.start) := by
  have hperm : List.Perm (sortBookedByStart B) B := by
    unfold sortBookedByStart
    exact List.perm_insertionSort _ _
  have hwfS : ∀ b ∈ sortBookedByStart B, b.start < b.stop :=
    fun b hb => hwf b (hperm.mem_iff.mp hb)
  have hdisjS : (sortBookedByStart B).Pairwise
      (fun a b => ¬(a.start < b.stop ∧ b.start < a.stop)) := by
    refine (hperm.pairwise_iff ?_).mpr hdisj
    intro x y hxy
    tauto
  have hsorted : (sortBookedByStart B).Pairwise (fun a b => a.start ≤ b.start) :=
    List.sorted_insertionSort _ _
  refine (hsorted.and hdisjS).imp_of_mem ?_
  intro a b ha hb hab
  have h1 := hwfS a ha
  have h2 := hwfS b hb
  obtain ⟨hle, hno⟩ := hab
  omega

/-! ## C1 -/

/-- C1: for a window `W` (with `start < end`) and pairwise non-overlapping
well-formed bookings, the slots the calculator emits for `W` are exactly `W`
minus the bookings: each emitted slot lies inside `W`, no emitted slot
strictly overlaps any booking, and the emitted durations sum to `W`'s
duration minus the total duration of the bookings' intersections with `W`
(the part of each overlapping booking that lies inside `W`). -/
theorem calculateFreeTimeSlots_window_exact (W : AvailabilitySlot) (B : List BookedSlot)
    (hW : W.startDateTime < W.endDateTime)
    (hwf : ∀ b ∈ B, b.start < b.stop)
    (hdisj : B.Pairwise fun a b => ¬(a.start < b.stop ∧ b.start < a.stop)) :
    (∀ s ∈ calculateFreeTimeSlots [W] B,
        W.startDateTime ≤ s.startDateTime ∧ s.endDateTime ≤ W.endDateTime)
    ∧ (∀ s ∈ calculateFreeTimeSlots [W] B, ∀ b ∈ B,
        ¬(s.startDateTime < b.stop ∧ b.start < s.endDateTime))
    ∧ ((calculateFreeTimeSlots [W] B).map FreeSlot.duration).sum
        = (W.endDateTime - W.startDateTime) - ((B.map fun b => overlapWithin b W).sum) := by
  have hperm := calculateFreeTimeSlots_single_window W B
  have hpermB : List.Perm (sortBookedByStart B) B := by
    unfold sortBookedByStart
    exact List.perm_insertionSort _ _
  have hwfS : ∀ b ∈ sortBookedByStart B, b.start < b.stop :=
    fun b hb => hwf b (hpermB.mem_iff.mp hb)
  have hchainS := sortBookedByStart_chain B hwf hdisj
  obtain ⟨con1, con2, con3⟩ := processAvailSlot_spec W (sortBookedByStart B) hW hwfS hchainS
  refine ⟨?_, ?_, ?_⟩
  · intro s hs
    obtain ⟨h1, h2, _⟩ := con1 s (hperm.mem_iff.mp hs)
    exact ⟨h1, h2⟩
  · intro s hs b hb
    exact con2 s (hperm.mem_iff.mp hs) b (hpermB.mem_iff.mpr hb)
  · have hsum1 : ((calculateFreeTimeSlots [W] B).map FreeSlot.duration).sum
        = ((processAvailSlot W (sortBookedByStart B)).map FreeSlot.duration).sum :=
      (hperm.map _).sum_eq
    have hsum2 : ((sortBookedByStart B).map fun b => overlapWithin b W).sum
        = (B.map fun b => overlapWithin b W).sum := (hpermB.map _).sum_eq
    rw [hsum1, con3, hsum2]

/-- Witness for C1: the spec's worked example, a 380-unit window with one
20-unit booking inside it, in minutes: window 40..420, booking 60..80, whose
two emitted slots lie in the window, avoid the booking, and total
380 - 20 = 360. -/
theorem calculateFreeTimeSlots_window_exact_witness :
    (∀ s ∈ calculateFreeTimeSlots [⟨40, 420, 19042⟩] [⟨60, 80⟩],
        (40 : Int) ≤ s.startDateTime ∧ s.endDateTime ≤ 420)
    ∧ (∀ s ∈ calculateFreeTimeSlots [⟨40, 420, 19042⟩] [⟨60, 80⟩],
        ∀ b ∈ [(⟨60, 80⟩ : BookedSlot)],
        ¬(s.startDateTime < b.stop ∧ b.start < s.endDateTime))
    ∧ ((calculateFreeTimeSlots [⟨40, 420, 19042⟩] [⟨60, 80⟩]).map FreeSlot.duration).sum
        = (420 - 40) - (([(⟨60, 80⟩ : BookedSlot)].map
            fun b => overlapWithin b ⟨40, 420, 19042⟩).sum) :=
  calculateFreeTimeSlots_window_exact ⟨40, 420, 19042⟩ [⟨60, 80⟩]
    (by decide) (by decide) (by decide)

theorem calculateFreeTimeSlots_singleton_eq (W : AvailabilitySlot) (B : List BookedSlot) :
    calculateFreeTimeSlots [W] B
      = sortFreeByStart (processAvailSlot W (sortBookedByStart B)) := by
  unfold calculateFreeTimeSlots
  simp

theorem orderedInsert_filter_of_neg (b : BookedSlot) (p : BookedSlot → Bool)
    (hb : p b = false) :
    ∀ l : List BookedSlot,
      (List.orderedInsert (fun a b => a.start ≤ b.start) b l).filter p = l.filter p := by
  intro l
  induction l with
  | nil => simp [List.orderedInsert, List.filter, hb]
  | cons x xs ih =>
    simp only [List.orderedInsert]
    split
    · simp [List.filter, hb]
    · simp [List.filter, ih]

theorem calculateFreeTimeSlots_cons_nonoverlapping (W : AvailabilitySlot)
    (B : List BookedSlot) (b : BookedSlot)
    (hb : ¬(b.start < W.endDateTime ∧ W.startDateTime < b.stop)) :
    calculateFreeTimeSlots [W] (b :: B) = calculateFreeTimeSlots [W] B := by
  have hfalse : overlapsWindow W.startDateTime W.endDateTime b = false := by
    cases h : overlapsWindow W.startDateTime W.endDateTime b
    · rfl
    · exact absurd ((overlapsWindow_iff _ _ _).mp h) hb
  have hfil : (sortBookedByStart (b :: B)).filter
        (overlapsWindow W.startDateTime W.endDateTime)
      = (sortBookedByStart B).filter (overlapsWindow W.startDateTime W.endDateTime) :=
    orderedInsert_filter_of_neg b _ hfalse (sortBookedByStart B)
  have hproc : processAvailSlot W (sortBookedByStart (b :: B))
      = processAvailSlot W (sortBookedByStart B) := by
    rw [processAvailSlot_eq, processAvailSlot_eq, hfil]
  rw [calculateFreeTimeSlots_singleton_eq, calculateFreeTimeSlots_singleton_eq, hproc]

/-! ## C5 -/

/-- C5: only bookings strictly overlapping a window are subtracted from it: a
booking without strict overlap (in particular one that merely touches the
window boundary, ending at the window start or starting at the window end)
does not change the slots emitted, and when no booking strictly overlaps the
window the calculator emits exactly one free slot equal to the window with
the window's locationId. -/
theorem calculateFreeTimeSlots_strict_overlap_only (W : AvailabilitySlot)
    (B : List BookedSlot) :
    (∀ b : BookedSlot, ¬(b.start < W.endDateTime ∧ W.startDateTime < b.stop) →
        calculateFreeTimeSlots [W] (b :: B) = calculateFreeTimeSlots [W] B)
    ∧ (∀ b : BookedSlot, b.stop = W.startDateTime ∨ b.start = W.endDateTime →
        calculateFreeTimeSlots [W] (b :: B) = calculateFreeTimeSlots [W] B)
    ∧ ((∀ b ∈ B, ¬(b.start < W.endDateTime ∧ W.startDateTime < b.stop)) →
        calculateFreeTimeSlots [W] B
          = [{ startDateTime := W.startDateTime, endDateTime := W.endDateTime,
               duration := W.endDateTime - W.startDateTime,
               locationId := W.locationId }]) := by
  refine ⟨fun b hb => calculateFreeTimeSlots_cons_nonoverlapping W B b hb, ?_, ?_⟩
  · intro b hb
    apply calculateFreeTimeSlots_cons_nonoverlapping
    rcases hb with h | h <;> omega
  · intro hall
    have hpermB : List.Perm (sortBookedByStart B) B := by
      unfold sortBookedByStart
      exact List.perm_insertionSort _ _
    have hfilS : (sortBookedByStart B).filter
        (overlapsWindow W.startDateTime W.endDateTime) = [] := by
      apply List.filter_eq_nil_iff.mpr
      intro a ha htrue
      exact hall a (hpermB.mem_iff.mp ha) ((overlapsWindow_iff _ _ _).mp htrue)
    have hproc : processAvailSlot W (sortBookedByStart B)
        = [{ startDateTime := W.startDateTime, endDateTime := W.endDateTime,
             duration := W.endDateTime - W.startDateTime,
             locationId := W.locationId }] := by
      rw [processAvailSlot_eq, if_pos (List.isEmpty_iff.mpr hfilS)]
    rw [calculateFreeTimeSlots_singleton_eq, hproc]
    rfl

/-- Witness for C5: a booking starting exactly at the window end does not
change the output, computed against a window 0..10 with one interior
booking. -/
theorem calculateFreeTimeSlots_strict_overlap_only_witness :
    calculateFreeTimeSlots [⟨0, 10, 1⟩] [⟨10, 20⟩, ⟨5, 7⟩]
      = calculateFreeTimeSlots [⟨0, 10, 1⟩] [⟨5, 7⟩] :=
  (calculateFreeTimeSlots_strict_overlap_only ⟨0, 10, 1⟩ [⟨5, 7⟩]).2.1 ⟨10, 20⟩ (Or.inr rfl)

/-! ## C6 -/

theorem processAvailSlot_wf (W : AvailabilitySlot) (bookedSlots : List BookedSlot)
    (hW : W.startDateTime < W.endDateTime) :
    ∀ s ∈ processAvailSlot W bookedSlots, s.startDateTime < s.endDateTime := by
  rw [processAvailSlot_eq]
  by_cases hemp : (bookedSlots.filter
      (overlapsWindow W.startDateTime W.endDateTime)).isEmpty = true
  · rw [if_pos hemp]
    intro s hs
    simp only [List.mem_singleton] at hs
    subst hs
    exact hW
  · rw [if_neg hemp]
    have hbasic := subtractLoop_basic W.locationId
      (bookedSlots.filter (overlapsWindow W.startDateTime W.endDateTime)) W.startDateTime
    by_cases hcur : (subtractLoop W.startDateTime W.locationId
        (bookedSlots.filter (overlapsWindow W.startDateTime W.endDateTime))).1
          < W.endDateTime
    · rw [if_pos hcur]
      intro s hs
      rcases List.mem_append.mp hs with hs | hs
      · exact (hbasic.2 s hs).2
      · simp only [List.mem_singleton] at hs
        subst hs
        exact hcur
    · rw [if_neg hcur]
      intro s hs
      exact (hbasic.2 s hs).2

/-- C6: every slot the calculator emits from well-formed availability windows
has `start < end` (no zero-length slot is emitted when the subtraction cursor
lands on a booking start or on the window end), and a booking that fully
contains a window yields zero slots for that window. -/
theorem calculateFreeTimeSlots_positive_length
    (availabilitySlots : List AvailabilitySlot) (appointments : List BookedSlot)
    (W : AvailabilitySlot) (b : BookedSlot)
    (hwin : ∀ a ∈ availabilitySlots, a.startDateTime < a.endDateTime)
    (hW : W.startDateTime < W.endDateTime)
    (hb1 : b.start ≤ W.startDateTime) (hb2 : W.endDateTime ≤ b.stop) :
    (∀ s ∈ calculateFreeTimeSlots availabilitySlots appointments,
        s.startDateTime < s.endDateTime)
    ∧ calculateFreeTimeSlots [W] [b] = [] := by
  constructor
  · intro s hs
    have hperm : List.Perm (calculateFreeTimeSlots availabilitySlots appointments)
        ((availabilitySlots.map fun availSlot =>
          processAvailSlot availSlot (sortBookedByStart appointments)).flatten) := by
      unfold calculateFreeTimeSlots sortFreeByStart
      exact List.perm_insertionSort _ _
    have hs2 := hperm.mem_iff.mp hs
    obtain ⟨l, hl, hsl⟩ := List.mem_flatten.mp hs2
    obtain ⟨a, ha, hal⟩ := List.mem_map.mp hl
    exact processAvailSlot_wf a _ (hwin a ha) s (hal ▸ hsl)
  · have hptrue : overlapsWindow W.startDateTime W.endDateTime b = true :=
      (overlapsWindow_iff _ _ _).mpr ⟨by omega, by omega⟩
    have hfil : (sortBookedByStart [b]).filter
        (overlapsWindow W.startDateTime W.endDateTime) = [b] := by
      show List.filter _ [b] = [b]
      rw [List.filter_cons_of_pos]
      · rfl
      · exact hptrue
    have hloop : subtractLoop W.startDateTime W.locationId [b]
        = (max W.startDateTime b.stop, []) := by
      rw [subtractLoop_cons, subtractLoop_nil]
      rw [if_neg (by omega)]
      rfl
    have hproc : processAvailSlot W (sortBookedByStart [b]) = [] := by
      rw [processAvailSlot_eq, hfil]
      rw [if_neg (by simp), hloop]
      rw [if_neg (by simp; omega)]
    rw [calculateFreeTimeSlots_singleton_eq, hproc]
    rfl

/-- Witness for C6: a window 2..8 fully contained in a booking 0..10 yields no
slots, and the slots of a window 0..10 minus a booking 2..3 all have positive
length. -/
theorem calculateFreeTimeSlots_positive_length_witness :
    (∀ s ∈ calculateFreeTimeSlots [⟨0, 10, 1⟩] [⟨2, 3⟩],
        s.startDateTime < s.endDateTime)
    ∧ calculateFreeTimeSlots [⟨2, 8, 1⟩] [⟨0, 10⟩] = [] :=
  calculateFreeTimeSlots_positive_length [⟨0, 10, 1⟩] [⟨2, 3⟩] ⟨2, 8, 1⟩ ⟨0, 10⟩
    (by decide) (by decide) (by decide) (by decide)
